import Mathlib

/-!
Verification of the data pipeline of a COVID-19 dashboard (src/app.py).

The program loads a JSON table with pandas, normalizes column names, renames
known aliases to canonical names, parses and sorts the date column, coerces
six numeric columns, and derives growth/rate metrics.  This file gives a
shallow embedding of that pipeline:

* column names are `String`s, raw cell values are the string form of the
  JSON scalars (the source applies `.astype(str)` before numeric coercion,
  and date parsing is modelled by an arbitrary parser argument, since
  `pd.to_datetime(..., format="mixed", errors="coerce")` is an external
  library routine: it is a function `String → Option Nat` sending a raw cell
  to a date ordinal or `none` for an unparsable date);
* numeric magnitudes are exact (`Nat`/`ℚ`), and the one failure the
  Int64/float64 widths cause in the loader — `astype("Int64")` raising on a
  digit remainder above `2^63 - 1` — is modelled as an explicit branch of
  `load_data` (see `int64Max`); float64 rounding between `2^53` and `2^63`
  is not modelled, and the success guarantee stated below is accordingly
  scoped to values at most `2^53` (see `float64SafeBound`);
* IEEE-754 special values produced by pandas/numpy arithmetic are modelled by
  `FVal`: an exact rational, positive/negative infinity, NaN, the masked
  missing value `pd.NA` (distinct from NaN!), and two symbolic finite
  values (`finPos`/`finNeg`) standing for non-representable finite results
  of `np.log` whose exact magnitude no claim depends on.
  Signed zero is not distinguished: `fin 0` stands for both `0.0` and
  `-0.0` (they compare equal in IEEE-754, and every claim only tests
  equality with 0), and a zero denominator is treated as `+0.0`, which is
  the only zero this pipeline can produce (all data are non-negative).

The pandas version in use is ≥ 2.0 (`pd.to_datetime(..., format="mixed")`
exists only there), where the numeric columns are nullable (`Int64`) and
arithmetic produces nullable (`Float64`) masked arrays.  There, missing
values (`pd.NA`, tracked by the mask — e.g. those introduced by `shift`
inside `diff`/`pct_change`) are distinct from float `NaN` values computed
by the arithmetic itself (e.g. `0/0`), and `.fillna(0)` fills only the
masked `NA`s: a computed `NaN` is unmasked and survives `fillna` (cf.
pandas' own `test_div_by_zero`, where `Int64 [0,1,-1,NA] / 0` is the
`Float64` array with values `[nan, inf, -inf, nan]` and mask
`[False, False, False, True]`).  The model keeps the two apart as
`FVal.na` and `FVal.nan`.
-/

namespace CovidApp

/-! ## Character-level helpers (ASCII model of the string operations used
by `load_data`, src/app.py lines 28-31 and 59) -/

/-- Whitespace stripped by `.str.strip()` (ASCII model). -/
def isWsChar (c : Char) : Bool :=
  decide (c.toNat = 32 ∨ c.toNat = 9 ∨ c.toNat = 10 ∨ c.toNat = 13)

/-- A character kept by the regex class `[a-z0-9]` of
`.str.replace("[^a-z0-9]+", "_", regex=True)`. -/
def isAlnumLower (c : Char) : Bool :=
  decide ((97 ≤ c.toNat ∧ c.toNat ≤ 122) ∨ (48 ≤ c.toNat ∧ c.toNat ≤ 57))

/-- A character kept by the regex class `[0-9]` of
`.str.replace("[^0-9]", "", regex=True)` (line 59). -/
def isDigitChar (c : Char) : Bool :=
  decide (48 ≤ c.toNat ∧ c.toNat ≤ 57)

/-- A nonzero decimal digit `[1-9]` (used only to state properties of the
numeric coercion). -/
def isNonzeroDigit (c : Char) : Bool :=
  decide (49 ≤ c.toNat ∧ c.toNat ≤ 57)

/-- `.str.lower()` (ASCII model): map `A`-`Z` to `a`-`z`. -/
def toLowerChar (c : Char) : Char :=
  if 65 ≤ c.toNat ∧ c.toNat ≤ 90 then Char.ofNat (c.toNat + 32) else c

/-- `.str.strip()`: drop leading and trailing whitespace. -/
def trimList (l : List Char) : List Char :=
  ((l.dropWhile isWsChar).reverse.dropWhile isWsChar).reverse

/-- `.str.replace("[^a-z0-9]+", "_", regex=True)`: replace every maximal run
of characters outside `[a-z0-9]` with a single underscore.  The flag records
whether we are inside such a run (so that the run emits one `_` only). -/
def collapseAux : Bool → List Char → List Char
  | _, [] => []
  | true, c :: cs =>
    if isAlnumLower c then c :: collapseAux false cs else collapseAux true cs
  | false, c :: cs =>
    if isAlnumLower c then c :: collapseAux false cs else '_' :: collapseAux true cs

/-- Column-name normalization of `load_data` (src/app.py lines 28-32):
strip, lowercase, then collapse runs of non-alphanumerics to `_`. -/
def normalizeName (s : String) : String :=
  String.mk (collapseAux false ((trimList s.data).map toLowerChar))

/-! ## Rename table (src/app.py lines 34-43) -/

/-- The fixed alias table `column_mapping`. -/
def columnMapping : List (String × String) :=
  [("totalcases", "total_confirmed_cases"),
   ("confirmed", "total_confirmed_cases"),
   ("deaths", "total_deaths"),
   ("recovered", "total_recovered"),
   ("active", "active_cases"),
   ("new_cases", "daily_confirmed_cases"),
   ("new_deaths", "daily_deaths")]

/-- `df.rename(columns=column_mapping)` relabels each column independently:
a label that is a key of the mapping becomes its value, any other label is
unchanged.  pandas does not merge or deduplicate resulting labels. -/
def applyMapping (n : String) : String :=
  match columnMapping.find? (fun p => p.1 == n) with
  | some p => p.2
  | none => n

/-- The six canonical numeric columns (`numeric_cols`, src/app.py 52-54). -/
def numericCols : List String :=
  ["total_confirmed_cases", "total_deaths", "total_recovered",
   "active_cases", "daily_confirmed_cases", "daily_deaths"]

/-! ## Numeric coercion (src/app.py lines 56-61) -/

/-- One cell of
`pd.to_numeric(df[col].astype(str).str.replace("[^0-9]", "", regex=True),
errors="coerce").fillna(0)`: every character outside `0-9` is removed from
the string form; what remains is read as a decimal numeral; an empty
remainder is a parse failure coerced to NaN and then filled with 0 (and the
left fold below indeed yields 0 on the empty digit list). -/
def coerceCell (s : String) : Nat :=
  (s.data.filter isDigitChar).foldl (fun v c => v * 10 + (c.toNat - 48)) 0

/-! ## Tables and the loader (src/app.py lines 22-67) -/

/-- A value of the normalized table: the date column holds parsed dates, the
six numeric columns hold coerced integers (`Int64`, always non-negative
here), every other column keeps its raw string form. -/
inductive Cell where
  | date : Nat → Cell
  | nat : Nat → Cell
  | str : String → Cell
deriving DecidableEq

/-- The raw table as `pd.read_json` produces it: a header and rows of cells
aligned with the header (cell `i` of a row belongs to column `i`). -/
structure RawTable where
  cols : List String
  rows : List (List String)
deriving DecidableEq

/-- The normalized table `load_data` returns. -/
structure NormTable where
  cols : List String
  rows : List (List Cell)
deriving DecidableEq

/-- The two user-visible failures of `load_data`: `loadError` is the
`except` branch (st.error("Data loading failed: ...") then `return None`,
lines 65-67), `missingColumn` the missing-date branch (lines 48-50). -/
inductive LoadFailure where
  | loadError : LoadFailure
  | missingColumn : LoadFailure
deriving DecidableEq

/-- Index of the first column with the given label (how a unique pandas
label selects its column). -/
def findCol (name : String) : List String → Option Nat
  | [] => none
  | c :: cs => if c = name then some 0 else (findCol name cs).map (fun i => i + 1)

/-- Header after `load_data`'s two renaming steps: normalize every column
name, then apply the alias table. -/
def normalizedHeader (raw : RawTable) : List String :=
  (raw.cols.map normalizeName).map applyMapping

/-- Parse the date cell of one raw row: `none` (row dropped, as by
`dropna(subset=["date"])`) when the cell is missing or unparsable, otherwise
the row keyed by its parsed date. -/
def rowKeyed (pd : String → Option Nat) (di : Nat) (r : List String) :
    Option (Nat × List String) :=
  (r.get? di).bind (fun s => (pd s).map (fun d => (d, r)))

/-- Insert into a list sorted ascending by key. -/
def insertSorted (a : Nat × List String) : List (Nat × List String) → List (Nat × List String)
  | [] => [a]
  | b :: bs => if a.1 ≤ b.1 then a :: b :: bs else b :: insertSorted a bs

/-- `df.sort_values("date")`: sort rows ascending by parsed date.  The
source's quicksort leaves the relative order of equal dates unspecified;
any ascending sort is a faithful model for the properties stated here. -/
def sortByDate : List (Nat × List String) → List (Nat × List String)
  | [] => []
  | a :: as => insertSorted a (sortByDate as)

/-- Build one normalized row: position `di` (the date column) receives the
parsed date, positions whose label is one of the six numeric columns receive
the coerced integer, all others keep the raw string.  `j` is the index of
the head of `cnames` within the full header. -/
def buildCells (d : Nat) (di : Nat) : Nat → List String → List String → List Cell
  | _, [], _ => []
  | _, _ :: _, [] => []
  | j, cname :: cnames, s :: ss =>
    (if j = di then Cell.date d
     else if cname ∈ numericCols then Cell.nat (coerceCell s)
     else Cell.str s) :: buildCells d di (j + 1) cnames ss

/-- Does the renamed header carry a duplicate label among those `load_data`
selects?  pandas `rename` keeps both columns of a collision under one label;
selecting that label then yields a DataFrame, on which the subsequent
`pd.to_datetime` (for "date") or `.str` accessor (for a numeric column)
raises, so the whole load falls into the `except` branch. -/
def dupDate (cols : List String) : Bool := decide (2 ≤ cols.count ("date"))

/-- See `dupDate`: a duplicated canonical numeric label. -/
def dupNumeric (cols : List String) : Bool :=
  numericCols.any (fun c => decide (2 ≤ cols.count c))

/-- The largest value `astype("Int64")` can store: `2^63 - 1`.  A digit
remainder above it makes the numeric coercion raise: `pd.to_numeric` parses
such a numeral as uint64 or float64, and the `Int64` cast then fails its
safe-cast equivalence check (`TypeError: cannot safely cast non-equivalent
... to int64`), caught by the `except` branch of `load_data`. -/
def int64Max : Nat := 9223372036854775807

/-- The largest integer magnitude (`2^53`) below which the whole coercion
is exact in the source even when a column takes the float64 detour (a
parse-failure NaN in the column forces float64, where integers above `2^53`
round).  Used only to state the sufficient condition for a successful
load. -/
def float64SafeBound : Nat := 9007199254740992

/-- Is some cell of a selectable numeric column (paired positionally with
its header label) above `bound` after digit stripping?  Evaluated on the
rows surviving the date dropna — the source coerces columns only after
`dropna`/`sort_values`, so dropped rows are never parsed. -/
def anyNumericAbove (bound : Nat) (cols : List String)
    (keyed : List (Nat × List String)) : Bool :=
  keyed.any (fun p => (cols.zip p.2).any (fun q =>
    decide (q.1 ∈ numericCols ∧ bound < coerceCell q.2)))

/-- `load_data` (src/app.py lines 22-67).  `input = none` models a missing
or unparsable `covid.json` (`pd.read_json` raises, caught by the `except`
branch).  Otherwise: normalize and rename the header; fail with
`missingColumn` when no `date` column exists; parse dates, drop unparsable
rows, sort ascending; coerce the numeric columns.  A duplicate `date` or
duplicate canonical numeric label makes the corresponding selection raise
(see `dupDate`), and a surviving numeric cell above `int64Max` makes
`astype("Int64")` raise (see `int64Max`); either way the `except` branch
turns the exception into `loadError`.  One corner is not modelled exactly:
a column holding both a parse-failure cell and a value between `2^53` and
`2^63` takes the source's float64 detour, where values round (and a few
hundred values just below `int64Max` round up to `2^63` and fail); the
claims only rely on this model below `float64SafeBound`, where the source
is exact. -/
def load_data (pd : String → Option Nat) (input : Option RawTable) :
    Except LoadFailure NormTable :=
  match input with
  | none => Except.error LoadFailure.loadError
  | some raw =>
    let cols := normalizedHeader raw
    match findCol ("date") cols with
    | none => Except.error LoadFailure.missingColumn
    | some di =>
      if dupDate cols then Except.error LoadFailure.loadError
      else if dupNumeric cols then Except.error LoadFailure.loadError
      else if anyNumericAbove int64Max cols (raw.rows.filterMap (rowKeyed pd di)) then
        Except.error LoadFailure.loadError
      else
        Except.ok
          { cols := cols
            rows := (sortByDate (raw.rows.filterMap (rowKeyed pd di))).map
              (fun p => buildCells p.1 di 0 cols p.2) }

/-- The cells of the column with the given label (empty when absent). -/
def colCells (t : NormTable) (name : String) : List Cell :=
  match findCol name t.cols with
  | none => []
  | some i => t.rows.filterMap (fun r => r.get? i)

/-- The date cell of a row, when position `i` holds a parsed date. -/
def dateAt (i : Nat) (r : List Cell) : Option Nat :=
  match r.get? i with
  | some (Cell.date d) => some d
  | _ => none

/-- The parsed dates of the normalized table, in row order. -/
def dateColumn (t : NormTable) : List Nat :=
  match findCol ("date") t.cols with
  | none => []
  | some i => t.rows.filterMap (dateAt i)

/-! ## IEEE-754 value model for the derived metrics
(src/app.py lines 69-88) -/

/-- Value of one entry of a nullable float64 column produced by the metric
formulas: an exact rational, `±∞`, a computed float NaN, the masked missing
value `pd.NA` (`na` — see the file comment: `NA ≠ NaN`, and only `na` is
filled by `fillna`), or a symbolic positive/negative finite value
(`finPos`/`finNeg`) for the non-representable finite outputs of `np.log` —
only their sign and finiteness matter to any claim.  No signed zero:
`fin 0` covers `±0.0`. -/
inductive FVal where
  | fin : ℚ → FVal
  | finPos : FVal
  | finNeg : FVal
  | inf : FVal
  | ninf : FVal
  | nan : FVal
  | na : FVal
deriving DecidableEq

/-- IEEE-754 division on `FVal`.  A masked `NA` operand masks the result
(`na` propagates first); a float NaN propagates as NaN.  A zero denominator
is `+0.0` (the only zero the pipeline produces; see the file comment).
Quotients by `±∞` are `±0.0`, both modelled as `fin 0`.  The
`finPos`/`finNeg` cases follow the sign rules of IEEE-754 division for a
finite value of that sign. -/
def fdiv : FVal → FVal → FVal
  | FVal.na, _ => FVal.na
  | _, FVal.na => FVal.na
  | FVal.nan, _ => FVal.nan
  | _, FVal.nan => FVal.nan
  | FVal.fin a, FVal.fin b =>
    if b = 0 then
      (if a = 0 then FVal.nan else if 0 < a then FVal.inf else FVal.ninf)
    else FVal.fin (a / b)
  | FVal.fin _, FVal.inf => FVal.fin 0
  | FVal.fin _, FVal.ninf => FVal.fin 0
  | FVal.fin a, FVal.finPos =>
    if a = 0 then FVal.fin 0 else if 0 < a then FVal.finPos else FVal.finNeg
  | FVal.fin a, FVal.finNeg =>
    if a = 0 then FVal.fin 0 else if 0 < a then FVal.finNeg else FVal.finPos
  | FVal.finPos, FVal.fin b =>
    if b = 0 then FVal.inf else if 0 < b then FVal.finPos else FVal.finNeg
  | FVal.finPos, FVal.finPos => FVal.finPos
  | FVal.finPos, FVal.finNeg => FVal.finNeg
  | FVal.finPos, FVal.inf => FVal.fin 0
  | FVal.finPos, FVal.ninf => FVal.fin 0
  | FVal.finNeg, FVal.fin b =>
    if b = 0 then FVal.ninf else if 0 < b then FVal.finNeg else FVal.finPos
  | FVal.finNeg, FVal.finPos => FVal.finNeg
  | FVal.finNeg, FVal.finNeg => FVal.finPos
  | FVal.finNeg, FVal.inf => FVal.fin 0
  | FVal.finNeg, FVal.ninf => FVal.fin 0
  | FVal.inf, FVal.fin b => if 0 ≤ b then FVal.inf else FVal.ninf
  | FVal.inf, FVal.finPos => FVal.inf
  | FVal.inf, FVal.finNeg => FVal.ninf
  | FVal.inf, FVal.inf => FVal.nan
  | FVal.inf, FVal.ninf => FVal.nan
  | FVal.ninf, FVal.fin b => if 0 ≤ b then FVal.ninf else FVal.inf
  | FVal.ninf, FVal.finPos => FVal.ninf
  | FVal.ninf, FVal.finNeg => FVal.inf
  | FVal.ninf, FVal.inf => FVal.nan
  | FVal.ninf, FVal.ninf => FVal.nan

/-- IEEE-754 addition on `FVal` (with mask propagation for `na`), used only
as `1 + growth_rate`.  Sums involving a symbolic `finPos`/`finNeg` operand
whose result sign is not determined are mapped to `nan`; these cases are
unreachable in this pipeline (the growth column holds only `fin`, `inf`
and `nan` values). -/
def fadd : FVal → FVal → FVal
  | FVal.na, _ => FVal.na
  | _, FVal.na => FVal.na
  | FVal.nan, _ => FVal.nan
  | _, FVal.nan => FVal.nan
  | FVal.fin a, FVal.fin b => FVal.fin (a + b)
  | FVal.fin _, FVal.inf => FVal.inf
  | FVal.inf, FVal.fin _ => FVal.inf
  | FVal.fin _, FVal.ninf => FVal.ninf
  | FVal.ninf, FVal.fin _ => FVal.ninf
  | FVal.inf, FVal.inf => FVal.inf
  | FVal.ninf, FVal.ninf => FVal.ninf
  | FVal.inf, FVal.ninf => FVal.nan
  | FVal.ninf, FVal.inf => FVal.nan
  | FVal.finPos, FVal.inf => FVal.inf
  | FVal.inf, FVal.finPos => FVal.inf
  | FVal.finNeg, FVal.inf => FVal.inf
  | FVal.inf, FVal.finNeg => FVal.inf
  | FVal.finPos, FVal.ninf => FVal.ninf
  | FVal.ninf, FVal.finPos => FVal.ninf
  | FVal.finNeg, FVal.ninf => FVal.ninf
  | FVal.ninf, FVal.finNeg => FVal.ninf
  | FVal.finPos, FVal.finPos => FVal.finPos
  | FVal.finNeg, FVal.finNeg => FVal.finNeg
  | FVal.fin _, FVal.finPos => FVal.nan
  | FVal.finPos, FVal.fin _ => FVal.nan
  | FVal.fin _, FVal.finNeg => FVal.nan
  | FVal.finNeg, FVal.fin _ => FVal.nan
  | FVal.finPos, FVal.finNeg => FVal.nan
  | FVal.finNeg, FVal.finPos => FVal.nan

/-- Multiplication by the positive constant 100 (`* 100`, lines 75 and
86-87): preserves sign, infinities and NaN. -/
def fmul100 : FVal → FVal
  | FVal.fin q => FVal.fin (100 * q)
  | FVal.finPos => FVal.finPos
  | FVal.finNeg => FVal.finNeg
  | FVal.inf => FVal.inf
  | FVal.ninf => FVal.ninf
  | FVal.nan => FVal.nan
  | FVal.na => FVal.na

/-- `np.log` on `FVal`: NaN on negative arguments and NaN, `-∞` at `0`,
`+∞` at `+∞`, `0` at `1`, and otherwise a finite value negative on `(0,1)`
and positive on `(1,∞)`.  `finPos` input is mapped to `nan` (junk: its
magnitude, hence the sign of its log, is unknown; unreachable here —
`np.log` is only applied to `1 + growth_rate`, never to a log output). -/
def flog : FVal → FVal
  | FVal.na => FVal.na
  | FVal.nan => FVal.nan
  | FVal.ninf => FVal.nan
  | FVal.inf => FVal.inf
  | FVal.finNeg => FVal.nan
  | FVal.finPos => FVal.nan
  | FVal.fin q =>
    if q < 0 then FVal.nan
    else if q = 0 then FVal.ninf
    else if q = 1 then FVal.fin 0
    else if q < 1 then FVal.finNeg
    else FVal.finPos

/-- `np.log(2)`: a positive, finite, non-representable constant. -/
def ln2F : FVal := FVal.finPos

/-- `.fillna(0)` on a nullable column: only the masked `NA`s become 0;
a computed float NaN is unmasked and is kept, as is everything else
(infinities included).  See the file comment. -/
def fillna0 (v : FVal) : FVal := if v = FVal.na then FVal.fin 0 else v

/-- `.replace([np.inf, -np.inf], 0).fillna(0)` (line 77): `replace` matches
the two infinite values, `fillna` then fills the masked `NA`s — an unmasked
computed NaN survives both. -/
def cleanup (v : FVal) : FVal :=
  if v = FVal.inf then FVal.fin 0
  else if v = FVal.ninf then FVal.fin 0
  else if v = FVal.na then FVal.fin 0
  else v

/-- Is the value `≤ 0` (a non-positive finite value or `-∞`)?  Used to state
the "non-positive `1 + growth_rate`" case of the doubling-time policy. -/
def isNonPos : FVal → Bool
  | FVal.fin q => decide (q ≤ 0)
  | FVal.finNeg => true
  | FVal.ninf => true
  | _ => false

/-- Is the value finite (neither `±∞` nor NaN)? -/
def isFiniteVal : FVal → Bool
  | FVal.fin _ => true
  | FVal.finPos => true
  | FVal.finNeg => true
  | _ => false

/-- One entry of `pct_change` on the confirmed-cases column:
`(cur - prev) / prev` in IEEE-754 arithmetic. -/
def pct_entry (prev cur : Nat) : FVal :=
  fdiv (FVal.fin ((cur : ℚ) - (prev : ℚ))) (FVal.fin ((prev : ℚ)))

/-- `Series.pct_change()`: a masked `NA` for the first row (the `shift`
inside it has no predecessor, and the mask propagates through the
division), then the relative change from each value to the next. -/
def pct_change (xs : List Nat) : List FVal :=
  match xs with
  | [] => []
  | _ :: _ => FVal.na :: List.zipWith pct_entry xs xs.tail

/-- `Series.diff().fillna(0)`: 0 for the first row, then first differences
(exact integers; `Int64` differencing cannot produce non-finite values). -/
def diff_change (xs : List Nat) : List Int :=
  match xs with
  | [] => []
  | _ :: _ => 0 :: List.zipWith (fun prev cur => (cur : Int) - (prev : Int)) xs xs.tail

/-- `np.log(2) / np.log(1 + g)` for one growth value `g` (line 76), before
the replace/fillna cleanup of line 77. -/
def doubling_ratio (g : FVal) : FVal :=
  fdiv ln2F (flog (fadd (FVal.fin 1) g))

/-- One entry of `total_deaths / total_confirmed_cases` (and of
`total_recovered / total_confirmed_cases`): an Int64 quotient, evaluated in
float64. -/
def rate_entry (num den : Nat) : FVal :=
  fdiv (FVal.fin ((num : ℚ))) (FVal.fin ((den : ℚ)))

/-- The source columns of the normalized table that the metric functions
read (dates as ordinals, counts as the non-negative integers `load_data`
produces). -/
structure MetricTable where
  date : List Nat
  total_confirmed_cases : List Nat
  total_deaths : List Nat
  total_recovered : List Nat
  active_cases : List Nat
  daily_confirmed_cases : List Nat
  daily_deaths : List Nat
deriving DecidableEq

/-- `MetricTable` augmented with the columns `calculate_growth_metrics`
adds (src/app.py lines 69-78). -/
structure GrowthTable extends MetricTable where
  daily_change : List Int
  growth_rate : List FVal
  growth_rate_pct : List FVal
  doubling_time_days : List FVal
deriving DecidableEq

/-- `GrowthTable` augmented with the columns `calculate_rates` adds
(src/app.py lines 80-88). -/
structure RatesTable extends GrowthTable where
  cfr : List FVal
  recovery_rate : List FVal
  cfr_pct : List FVal
  recovery_rate_pct : List FVal
deriving DecidableEq

/-- `calculate_growth_metrics` (src/app.py lines 69-78). -/
def calculate_growth_metrics (t : MetricTable) : GrowthTable :=
  let growth := (pct_change t.total_confirmed_cases).map fillna0
  { toMetricTable := t
    daily_change := diff_change t.total_confirmed_cases
    growth_rate := growth
    growth_rate_pct := growth.map fmul100
    doubling_time_days := (growth.map doubling_ratio).map cleanup }

/-- `calculate_rates` (src/app.py lines 80-88).  Note: the source applies no
replace/fillna here — non-finite quotients are returned as they are. -/
def calculate_rates (g : GrowthTable) : RatesTable :=
  let cfrCol := List.zipWith rate_entry g.total_deaths g.total_confirmed_cases
  let recCol := List.zipWith rate_entry g.total_recovered g.total_confirmed_cases
  { toGrowthTable := g
    cfr := cfrCol
    recovery_rate := recCol
    cfr_pct := cfrCol.map fmul100
    recovery_rate_pct := recCol.map fmul100 }

/-! ## Concrete instances used by counterexamples and witnesses -/

/-- A concrete date parser for closed instances: read the cell as a decimal
numeral (every cell used below is a plain numeral). -/
def demoParse (s : String) : Option Nat := some (coerceCell s)

/-- Two rows carrying the same date: both survive normalization. -/
def rawDupDates : RawTable := { cols := [("date")], rows := [[("1")], [("1")]] }

/-- What `load_data` produces on `rawDupDates`. -/
def tDupDates : NormTable :=
  { cols := [("date")], rows := [[Cell.date 1], [Cell.date 1]] }

/-- A table carrying both aliases `totalcases` and `confirmed` of the
canonical column `total_confirmed_cases`, plus a date column. -/
def rawCollide : RawTable :=
  { cols := [("totalcases"), ("confirmed"), ("date")]
    rows := [[("1"), ("2"), ("3")]] }

/-- A one-row raw table exercising the numeric coercion. -/
def rawCoerce : RawTable :=
  { cols := [("date"), ("confirmed")], rows := [[("1"), ("1,234 cases")]] }

/-- Confirmed cases 0 then 5: the previous value 0 makes `pct_change`
divide by zero. -/
def tGrowthInf : MetricTable :=
  { date := [0, 1], total_confirmed_cases := [0, 5], total_deaths := [0, 0]
    total_recovered := [0, 0], active_cases := [0, 0]
    daily_confirmed_cases := [0, 0], daily_deaths := [0, 0] }

/-- Confirmed cases 0 then 0: the 0/0 of `pct_change` is an unmasked NaN,
which `fillna(0)` does not fill. -/
def tGrowthZero : MetricTable :=
  { date := [0, 1], total_confirmed_cases := [0, 0], total_deaths := [0, 0]
    total_recovered := [0, 0], active_cases := [0, 0]
    daily_confirmed_cases := [0, 0], daily_deaths := [0, 0] }

/-- A single row with 0 confirmed cases (and 0 deaths/recoveries). -/
def tRatesZero : MetricTable :=
  { date := [0], total_confirmed_cases := [0], total_deaths := [0]
    total_recovered := [0], active_cases := [0]
    daily_confirmed_cases := [0], daily_deaths := [0] }

/-- Two rows of constant positive confirmed cases. -/
def tConst : MetricTable :=
  { date := [0, 1], total_confirmed_cases := [3, 3], total_deaths := [0, 0]
    total_recovered := [0, 0], active_cases := [0, 0]
    daily_confirmed_cases := [0, 0], daily_deaths := [0, 0] }

/-! ## General list lemmas -/

theorem dropWhile_eq_self_of_all {α : Type} (p : α → Bool) :
    ∀ (l : List α), (∀ c ∈ l, p c = false) → l.dropWhile p = l
  | [], _ => rfl
  | c :: cs, h => by
    have hc : p c = false := h c (List.mem_cons_self c cs)
    simp [List.dropWhile, hc]

theorem map_eq_self_of_all {α : Type} (f : α → α) :
    ∀ (l : List α), (∀ c ∈ l, f c = c) → l.map f = l
  | [], _ => rfl
  | c :: cs, h => by
    rw [List.map_cons, h c (List.mem_cons_self c cs),
      map_eq_self_of_all f cs (fun x hx => h x (List.mem_cons_of_mem c hx))]

/-! ## Normalization: facts about `collapseAux`, `trimList`, `toLowerChar` -/

theorem trimList_eq_self (l : List Char) (h : ∀ c ∈ l, isWsChar c = false) :
    trimList l = l := by
  unfold trimList
  rw [dropWhile_eq_self_of_all _ l h,
    dropWhile_eq_self_of_all _ l.reverse (fun c hc => h c (List.mem_reverse.mp hc)),
    List.reverse_reverse]

theorem mem_collapseAux :
    ∀ (l : List Char) (b : Bool) (c : Char),
      c ∈ collapseAux b l → isAlnumLower c = true ∨ c = '_'
  | [], b, c, h => by cases b <;> simp [collapseAux] at h
  | d :: cs, b, c, h => by
    by_cases hd : isAlnumLower d
    · cases b <;> simp [collapseAux, hd] at h <;>
        exact h.elim (fun h1 => Or.inl (h1 ▸ hd)) (mem_collapseAux cs false c)
    · cases b with
      | true =>
        simp [collapseAux, hd] at h
        exact mem_collapseAux cs true c h
      | false =>
        simp [collapseAux, hd] at h
        exact h.elim Or.inr (mem_collapseAux cs true c)

theorem headAlnum :
    ∀ (l : List Char) (c : Char),
      (collapseAux true l).head? = some c → isAlnumLower c = true
  | [], c, h => by simp [collapseAux] at h
  | d :: cs, c, h => by
    by_cases hd : isAlnumLower d
    · simp [collapseAux, hd] at h
      exact h ▸ hd
    · simp [collapseAux, hd] at h
      exact headAlnum cs c h

theorem collapseAux_true_eq_false (l : List Char)
    (h : ∀ c, l.head? = some c → isAlnumLower c = true) :
    collapseAux true l = collapseAux false l := by
  cases l with
  | nil => rfl
  | cons d cs => simp [collapseAux, h d rfl]

theorem collapseAux_idem :
    ∀ (l : List Char) (b : Bool), collapseAux false (collapseAux b l) = collapseAux b l
  | [], b => by cases b <;> rfl
  | d :: cs, b => by
    by_cases hd : isAlnumLower d
    · cases b <;> simp [collapseAux, hd] <;> exact collapseAux_idem cs false
    · cases b with
      | true =>
        simp [collapseAux, hd]
        exact collapseAux_idem cs true
      | false =>
        have h95 : isAlnumLower '_' = false := by decide
        simp [collapseAux, hd, h95]
        rw [collapseAux_true_eq_false (collapseAux true cs) (headAlnum cs)]
        exact collapseAux_idem cs true

theorem notWs_of_alnumOrUnderscore {c : Char}
    (h : isAlnumLower c = true ∨ c = '_') : isWsChar c = false := by
  rcases h with h | h
  · simp [isAlnumLower] at h
    simp [isWsChar]
    omega
  · subst h
    decide

theorem lower_fix_of_alnumOrUnderscore {c : Char}
    (h : isAlnumLower c = true ∨ c = '_') : toLowerChar c = c := by
  rcases h with h | h
  · simp [isAlnumLower] at h
    unfold toLowerChar
    rw [if_neg (by omega)]
  · subst h
    decide

/-- Claim C9: the column-name normalization (trim whitespace, lowercase,
replace every run of non-alphanumeric characters with a single underscore)
is idempotent: normalizing an already-normalized name yields it unchanged. -/
theorem c9_normalize_idempotent (s : String) :
    normalizeName (normalizeName s) = normalizeName s := by
  unfold normalizeName
  set m := collapseAux false ((trimList s.data).map toLowerChar) with hm
  have hdata : (String.mk m).data = m := rfl
  rw [hdata]
  have hmem : ∀ c ∈ m, isAlnumLower c = true ∨ c = '_' :=
    fun c hc => mem_collapseAux _ _ c hc
  rw [trimList_eq_self m (fun c hc => notWs_of_alnumOrUnderscore (hmem c hc)),
    map_eq_self_of_all _ m (fun c hc => lower_fix_of_alnumOrUnderscore (hmem c hc)), hm]
  exact congrArg String.mk (collapseAux_idem _ false)

/-! ## Numeric coercion: facts about `coerceCell` -/

theorem foldl_digits_eq_zero :
    ∀ (l : List Char) (acc : Nat),
      (l.foldl (fun v c => v * 10 + (c.toNat - 48)) acc = 0) ↔
        (acc = 0 ∧ ∀ c ∈ l, c.toNat - 48 = 0)
  | [], acc => by simp
  | c :: cs, acc => by
    rw [List.foldl_cons, foldl_digits_eq_zero cs (acc * 10 + (c.toNat - 48))]
    constructor
    · rintro ⟨h1, h2⟩
      refine ⟨by omega, fun x hx => ?_⟩
      rcases List.mem_cons.mp hx with he | hx
      · subst he
        omega
      · exact h2 x hx
    · rintro ⟨h1, h2⟩
      have hc := h2 c (List.mem_cons_self c cs)
      exact ⟨by omega, fun x hx => h2 x (List.mem_cons_of_mem c hx)⟩

/-- Claim C10 counterexample: the string "0" normalizes to 0 yet contains a
digit, refuting "only strings containing no digit at all become 0". -/
theorem c10_cex :
    ¬ (∀ s : String, coerceCell s = 0 → ∀ c ∈ s.data, isDigitChar c = false) := by
  intro h
  exact absurd (h ("0") (by decide) '0' (by decide)) (by decide)

/-- Claim C10 (amended): stripping every non-digit makes "-5" normalize to 5
and "12.5" to 125, and a string normalizes to 0 exactly when it contains no
nonzero digit (so digit-free strings become 0, but so do strings such as
"0" whose digits are all zero). -/
theorem c10_amended :
    coerceCell ("-5") = 5 ∧ coerceCell ("12.5") = 125 ∧
      ∀ s : String, (coerceCell s = 0 ↔ ∀ c ∈ s.data, isNonzeroDigit c = false) := by
  refine ⟨by decide, by decide, fun s => ?_⟩
  unfold coerceCell
  rw [foldl_digits_eq_zero]
  constructor
  · rintro ⟨-, h⟩ c hc
    by_cases hd : isDigitChar c = true
    · have hz := h c (List.mem_filter.mpr ⟨hc, hd⟩)
      simp [isDigitChar] at hd
      simp [isNonzeroDigit]
      omega
    · simp [isDigitChar] at hd
      simp [isNonzeroDigit]
      omega
  · intro h
    refine ⟨rfl, fun c hc => ?_⟩
    obtain ⟨hcs, hd⟩ := List.mem_filter.mp hc
    have hnz := h c hcs
    simp [isNonzeroDigit] at hnz
    simp [isDigitChar] at hd
    omega

/-! ## Loader lemmas -/

theorem load_data_some (pd : String → Option Nat) (raw : RawTable) :
    load_data pd (some raw) =
      (match findCol ("date") (normalizedHeader raw) with
       | none => Except.error LoadFailure.missingColumn
       | some di =>
         if dupDate (normalizedHeader raw) then Except.error LoadFailure.loadError
         else if dupNumeric (normalizedHeader raw) then Except.error LoadFailure.loadError
         else if anyNumericAbove int64Max (normalizedHeader raw)
             (raw.rows.filterMap (rowKeyed pd di)) then
           Except.error LoadFailure.loadError
         else
           Except.ok
             { cols := normalizedHeader raw
               rows := (sortByDate (raw.rows.filterMap (rowKeyed pd di))).map
                 (fun p => buildCells p.1 di 0 (normalizedHeader raw) p.2) }) := rfl

theorem findCol_eq_none_iff (name : String) :
    ∀ (l : List String), findCol name l = none ↔ name ∉ l
  | [] => by simp [findCol]
  | c :: cs => by
    by_cases hc : c = name
    · subst hc
      simp [findCol]
    · simp [findCol, hc, findCol_eq_none_iff name cs, List.mem_cons]
      intro hne
      exact fun he => hc he.symm

theorem findCol_get? (name : String) :
    ∀ (l : List String) (i : Nat), findCol name l = some i → l.get? i = some name
  | [], i, h => by simp [findCol] at h
  | c :: cs, i, h => by
    by_cases hc : c = name
    · simp [findCol, hc] at h
      subst h
      simp [hc]
    · simp [findCol, hc] at h
      obtain ⟨j, hj, hi⟩ := h
      subst hi
      simpa using findCol_get? name cs j hj

theorem filterMap_eq_map_of_forall {α β : Type} (f : α → Option β) (g : α → β) :
    ∀ (l : List α), (∀ a ∈ l, f a = some (g a)) → l.filterMap f = l.map g
  | [], _ => rfl
  | a :: as, h => by
    rw [List.filterMap_cons, h a (List.mem_cons_self a as),
      filterMap_eq_map_of_forall f g as (fun x hx => h x (List.mem_cons_of_mem a hx)),
      List.map_cons]

theorem mem_insertSorted (a x : Nat × List String) :
    ∀ (l : List (Nat × List String)), x ∈ insertSorted a l ↔ x = a ∨ x ∈ l
  | [] => by simp [insertSorted]
  | b :: bs => by
    unfold insertSorted
    by_cases hab : a.1 ≤ b.1
    · simp [hab]
    · simp [hab, List.mem_cons, mem_insertSorted a x bs]
      tauto

theorem pairwise_insertSorted (a : Nat × List String) :
    ∀ (l : List (Nat × List String)), l.Pairwise (fun p q => p.1 ≤ q.1) →
      (insertSorted a l).Pairwise (fun p q => p.1 ≤ q.1)
  | [], _ => by simp [insertSorted]
  | b :: bs, h => by
    rw [List.pairwise_cons] at h
    obtain ⟨hb, hbs⟩ := h
    unfold insertSorted
    by_cases hab : a.1 ≤ b.1
    · rw [if_pos hab, List.pairwise_cons]
      refine ⟨fun x hx => ?_, List.pairwise_cons.mpr ⟨hb, hbs⟩⟩
      rcases List.mem_cons.mp hx with he | hx
      · exact he ▸ hab
      · exact le_trans hab (hb x hx)
    · rw [if_neg hab, List.pairwise_cons]
      refine ⟨fun x hx => ?_, pairwise_insertSorted a bs hbs⟩
      rcases (mem_insertSorted a x bs).mp hx with he | hx
      · exact he ▸ Nat.le_of_not_le hab
      · exact hb x hx

theorem pairwise_sortByDate :
    ∀ (l : List (Nat × List String)), (sortByDate l).Pairwise (fun p q => p.1 ≤ q.1)
  | [] => List.Pairwise.nil
  | a :: as => pairwise_insertSorted a (sortByDate as) (pairwise_sortByDate as)

theorem mem_sortByDate (x : Nat × List String) :
    ∀ (l : List (Nat × List String)), x ∈ sortByDate l → x ∈ l
  | [], h => by simp [sortByDate] at h
  | a :: as, h => by
    unfold sortByDate at h
    rcases (mem_insertSorted a x (sortByDate as)).mp h with he | hx
    · exact he ▸ List.mem_cons_self a as
    · exact List.mem_cons_of_mem a (mem_sortByDate x as hx)

theorem buildCells_get? :
    ∀ (cnames ss : List String) (d di j k : Nat),
      (buildCells d di j cnames ss).get? k =
        match cnames.get? k, ss.get? k with
        | some cname, some s =>
          some (if j + k = di then Cell.date d
                else if cname ∈ numericCols then Cell.nat (coerceCell s)
                else Cell.str s)
        | _, _ => none
  | [], ss, d, di, j, k => by simp [buildCells]
  | c :: cs, [], d, di, j, k => by cases k <;> simp [buildCells]
  | c :: cs, s :: ss, d, di, j, k => by
    cases k with
    | zero => simp [buildCells]
    | succ k =>
      have ih := buildCells_get? cs ss d di (j + 1) k
      simp only [buildCells, List.get?_cons_succ, ih]
      have harith : j + 1 + k = j + (k + 1) := by omega
      rw [harith]

/-- Raising the bound cannot introduce an overflowing cell. -/
theorem anyNumericAbove_mono (b1 b2 : Nat) (hb : b1 ≤ b2) (cols : List String)
    (keyed : List (Nat × List String)) (h : anyNumericAbove b1 cols keyed = false) :
    anyNumericAbove b2 cols keyed = false := by
  by_contra hne
  rw [Bool.not_eq_false] at hne
  unfold anyNumericAbove at hne h
  rw [List.any_eq_true] at hne
  obtain ⟨p, hp, hq⟩ := hne
  rw [List.any_eq_true] at hq
  obtain ⟨q, hqm, hqq⟩ := hq
  rw [decide_eq_true_eq] at hqq
  rw [← Bool.not_eq_true, List.any_eq_true] at h
  refine h ⟨p, hp, ?_⟩
  rw [List.any_eq_true]
  exact ⟨q, hqm, by rw [decide_eq_true_eq]; exact ⟨hqq.1, by omega⟩⟩

theorem dateColumn_eq (t : NormTable) (i : Nat)
    (h : findCol ("date") t.cols = some i) :
    dateColumn t = t.rows.filterMap (dateAt i) := by
  unfold dateColumn
  rw [h]

/-- Shape of a successful load: the branch conditions that held and the
normalized table that was built. -/
theorem load_data_ok (pd : String → Option Nat) (raw : RawTable) (t : NormTable)
    (h : load_data pd (some raw) = Except.ok t) :
    ∃ di, findCol ("date") (normalizedHeader raw) = some di ∧
      dupDate (normalizedHeader raw) = false ∧
      dupNumeric (normalizedHeader raw) = false ∧
      anyNumericAbove int64Max (normalizedHeader raw)
        (raw.rows.filterMap (rowKeyed pd di)) = false ∧
      t = { cols := normalizedHeader raw,
            rows := (sortByDate (raw.rows.filterMap (rowKeyed pd di))).map
              (fun p => buildCells p.1 di 0 (normalizedHeader raw) p.2) } := by
  rw [load_data_some] at h
  cases hf : findCol ("date") (normalizedHeader raw) with
  | none => rw [hf] at h; cases h
  | some di =>
    rw [hf] at h
    simp only at h
    by_cases h1 : dupDate (normalizedHeader raw) = true
    · simp [h1] at h
    · rw [Bool.not_eq_true] at h1
      by_cases h2 : dupNumeric (normalizedHeader raw) = true
      · simp [h1, h2] at h
      · rw [Bool.not_eq_true] at h2
        by_cases h3 : anyNumericAbove int64Max (normalizedHeader raw)
            (raw.rows.filterMap (rowKeyed pd di)) = true
        · simp [h1, h2, h3] at h
        · rw [Bool.not_eq_true] at h3
          simp [h1, h2, h3] at h
          exact ⟨di, rfl, h1, h2, h3, h.symm⟩

/-- Claim C1 counterexample: an input with two rows carrying the same date
is accepted by the loader and both rows survive normalization — duplicate
dates are not removed. -/
theorem c1_cex :
    load_data demoParse (some rawDupDates) = Except.ok tDupDates ∧
      dateColumn tDupDates = [1, 1] ∧ ¬ (dateColumn tDupDates).Nodup := by
  refine ⟨rfl, rfl, by decide⟩

/-- Claim C1 (amended): for every input dataset accepted by the loader, the
normalized table is sorted ascending (not necessarily strictly) by the date
column; rows with duplicate dates may survive normalization. -/
theorem c1_amended (pd : String → Option Nat) (raw : RawTable) (t : NormTable)
    (h : load_data pd (some raw) = Except.ok t) :
    List.Sorted (fun a b => a ≤ b) (dateColumn t) := by
  obtain ⟨di, hf, _, _, _, ht⟩ := load_data_ok pd raw t h
  subst ht
  rw [dateColumn_eq _ di hf]
  have hcolsdate : (normalizedHeader raw).get? di = some ("date") :=
    findCol_get? _ _ _ hf
  set keyed := raw.rows.filterMap (rowKeyed pd di) with hkeyed
  have hrow : ∀ p ∈ sortByDate keyed,
      dateAt di (buildCells p.1 di 0 (normalizedHeader raw) p.2) = some p.1 := by
    intro p hp
    have hpk : p ∈ keyed := mem_sortByDate p keyed hp
    obtain ⟨r, hr, hrk⟩ := List.mem_filterMap.mp hpk
    unfold rowKeyed at hrk
    cases hs : r.get? di with
    | none => rw [hs] at hrk; cases hrk
    | some s =>
      rw [hs] at hrk
      simp only [Option.some_bind] at hrk
      cases hd : pd s with
      | none => rw [hd] at hrk; cases hrk
      | some d =>
        rw [hd] at hrk
        simp only [Option.map_some'] at hrk
        have hp2 : p = (d, r) := ((Option.some.injEq _ _).mp hrk).symm
        subst hp2
        unfold dateAt
        rw [buildCells_get?, hcolsdate, hs]
        simp
  rw [List.filterMap_map, filterMap_eq_map_of_forall _ (fun p => p.1) _ hrow]
  exact List.pairwise_map.mpr (pairwise_sortByDate keyed)

/-- Claim C1 witness: a concrete accepted input whose date column the
amended theorem shows sorted. -/
theorem c1_witness : List.Sorted (fun a b : Nat => a ≤ b) (dateColumn tDupDates) :=
  c1_amended demoParse rawDupDates tDupDates (by rfl)

/-- Claim C6 counterexample: an input that parses and has a date column can
still make `load_data` fail — both aliases `totalcases` and `confirmed` are
present, so the renamed header carries a duplicate canonical label and the
numeric-coercion step raises (caught as the generic load failure). -/
theorem c6_cex :
    load_data demoParse (some rawCollide) = Except.error LoadFailure.loadError ∧
      ("date") ∈ normalizedHeader rawCollide :=
  ⟨rfl, by decide⟩

/-- Claim C6 (amended): a missing/unparsable input file fails with
`loadError`; the `missingColumn` failure occurs exactly when the renamed
header has no date column, and it is returned before any row is produced
(no partial output — the result type has no partial case).  A duplicate
`date` or canonical numeric label, and likewise a surviving numeric cell
whose digit remainder exceeds the Int64 maximum, also make the load fail
with the generic `loadError` (the selection or the `astype("Int64")` cast
raises, caught by the `except` branch).  Conversely, when a date column
exists, no selectable label is duplicated and every surviving numeric cell
is at most `2^53` (the regime where the source's Int64/float64 arithmetic
is exact), the load succeeds: unparsable numeric strings and missing
optional columns alone are never fatal. -/
theorem c6_amended (pd : String → Option Nat) :
    load_data pd none = Except.error LoadFailure.loadError ∧
      ∀ raw : RawTable,
        (load_data pd (some raw) = Except.error LoadFailure.missingColumn ↔
          ("date") ∉ normalizedHeader raw) ∧
        ∀ di, findCol ("date") (normalizedHeader raw) = some di →
          ((dupDate (normalizedHeader raw) = true ∨
              dupNumeric (normalizedHeader raw) = true ∨
              anyNumericAbove int64Max (normalizedHeader raw)
                (raw.rows.filterMap (rowKeyed pd di)) = true) →
            load_data pd (some raw) = Except.error LoadFailure.loadError) ∧
          (dupDate (normalizedHeader raw) = false →
            dupNumeric (normalizedHeader raw) = false →
            anyNumericAbove float64SafeBound (normalizedHeader raw)
              (raw.rows.filterMap (rowKeyed pd di)) = false →
            ∃ t, load_data pd (some raw) = Except.ok t) := by
  refine ⟨rfl, fun raw => ⟨?_, ?_⟩⟩
  · rw [← findCol_eq_none_iff ("date") (normalizedHeader raw)]
    cases hf : findCol ("date") (normalizedHeader raw) with
    | none => simp [load_data, hf]
    | some di =>
      by_cases h1 : dupDate (normalizedHeader raw) = true
      · simp [load_data, hf, h1]
      · by_cases h2 : dupNumeric (normalizedHeader raw) = true
        · simp [load_data, hf, h1, h2]
        · by_cases h3 : anyNumericAbove int64Max (normalizedHeader raw)
              (raw.rows.filterMap (rowKeyed pd di)) = true
          · simp [load_data, hf, h1, h2, h3]
          · simp [load_data, hf, h1, h2, h3]
  · intro di hf
    constructor
    · intro hcase
      by_cases h1 : dupDate (normalizedHeader raw) = true
      · simp [load_data, hf, h1]
      · by_cases h2 : dupNumeric (normalizedHeader raw) = true
        · simp [load_data, hf, h1, h2]
        · have h3 : anyNumericAbove int64Max (normalizedHeader raw)
              (raw.rows.filterMap (rowKeyed pd di)) = true := by
            rcases hcase with hc | hc | hc
            · exact absurd hc h1
            · exact absurd hc h2
            · exact hc
          simp [load_data, hf, h1, h2, h3]
    · intro h1 h2 h3
      have hovf : anyNumericAbove int64Max (normalizedHeader raw)
          (raw.rows.filterMap (rowKeyed pd di)) = false :=
        anyNumericAbove_mono float64SafeBound int64Max (by decide) _ _ h3
      refine ⟨{ cols := normalizedHeader raw,
                rows := (sortByDate (raw.rows.filterMap (rowKeyed pd di))).map
                  (fun p => buildCells p.1 di 0 (normalizedHeader raw) p.2) }, ?_⟩
      simp [load_data, hf, h1, h2, hovf]

/-- Claim C6 witness: the amended statement's clauses at the concrete input
`rawCoerce` (its one numeric cell coerces to 1234, well within `2^53`). -/
theorem c6_witness :
    ¬ (load_data demoParse (some rawCoerce) = Except.error LoadFailure.missingColumn) ∧
      ∃ t, load_data demoParse (some rawCoerce) = Except.ok t := by
  have h := (c6_amended demoParse).2 rawCoerce
  refine ⟨fun he => absurd (h.1.mp he) (by decide), ?_⟩
  exact (h.2 0 (by rfl)).2 (by rfl) (by rfl) (by rfl)

/-- Shared fact for C8: two distinct list members mapped to one value give
that value multiplicity at least 2 in the mapped list. -/
theorem two_le_count_map (f : String → String) :
    ∀ (l : List String) (a b : String), a ∈ l → b ∈ l → a ≠ b → f a = f b →
      2 ≤ (l.map f).count (f a)
  | [], a, b, ha, _, _, _ => absurd ha (List.not_mem_nil a)
  | c :: cs, a, b, ha, hb, hab, hf => by
    rw [List.map_cons, List.count_cons]
    rcases List.mem_cons.mp ha with hac | ha2
    · subst hac
      have hb2 : b ∈ cs := by
        rcases List.mem_cons.mp hb with h | h
        · exact absurd h.symm hab
        · exact h
      have h1 : 0 < (cs.map f).count (f a) :=
        List.count_pos_iff.mpr (List.mem_map.mpr ⟨b, hb2, hf.symm⟩)
      simp only [beq_self_eq_true, if_true]
      omega
    · rcases List.mem_cons.mp hb with hbc | hb2
      · subst hbc
        rw [hf]
        have h1 : 0 < (cs.map f).count (f b) :=
          List.count_pos_iff.mpr (List.mem_map.mpr ⟨a, ha2, hf⟩)
        simp only [beq_self_eq_true, if_true]
        omega
      · have h2 := two_le_count_map f cs a b ha2 hb2 hab hf
        omega

/-- Claim C8 counterexample: with both aliases present the renamed header
holds the canonical name twice — not "exactly one column" — and `load_data`
fails rather than resolving the collision last-applied-wins. -/
theorem c8_cex :
    (normalizedHeader rawCollide).count ("total_confirmed_cases") = 2 ∧
      load_data demoParse (some rawCollide) = Except.error LoadFailure.loadError :=
  ⟨rfl, rfl⟩

/-- Claim C8 (amended): `rename` maps every present alias independently and
is a no-op for absent ones; when two distinct aliases of the same canonical
name are both present (e.g. `totalcases` and `confirmed`), the renamed
header contains the canonical name twice (no deduplication, no
last-applied-wins), and `load_data` subsequently fails on the duplicated
label. -/
theorem c8_amended (pd : String → Option Nat) (raw : RawTable)
    (h1 : ("totalcases") ∈ raw.cols.map normalizeName)
    (h2 : ("confirmed") ∈ raw.cols.map normalizeName) :
    2 ≤ (normalizedHeader raw).count ("total_confirmed_cases") ∧
      ∃ e, load_data pd (some raw) = Except.error e := by
  have hcount :=
    two_le_count_map applyMapping (raw.cols.map normalizeName)
      ("totalcases") ("confirmed") h1 h2 (by decide) (by decide)
  have hcount2 : 2 ≤ (normalizedHeader raw).count ("total_confirmed_cases") := by
    have he : applyMapping ("totalcases") = ("total_confirmed_cases") := by decide
    rw [he] at hcount
    exact hcount
  refine ⟨hcount2, ?_⟩
  have hdup : dupNumeric (normalizedHeader raw) = true := by
    unfold dupNumeric
    rw [List.any_eq_true]
    exact ⟨("total_confirmed_cases"), by decide, by simpa using hcount2⟩
  cases hf : findCol ("date") (normalizedHeader raw) with
  | none => exact ⟨LoadFailure.missingColumn, by simp [load_data, hf]⟩
  | some di =>
    by_cases h1 : dupDate (normalizedHeader raw) = true
    · exact ⟨LoadFailure.loadError, by simp [load_data, hf, h1]⟩
    · exact ⟨LoadFailure.loadError, by simp [load_data, hf, h1, hdup]⟩

/-- Claim C8 witness: the amended statement at the concrete colliding
input. -/
theorem c8_witness :
    2 ≤ (normalizedHeader rawCollide).count ("total_confirmed_cases") ∧
      ∃ e, load_data demoParse (some rawCollide) = Except.error e :=
  c8_amended demoParse rawCollide (by decide) (by decide)

/-! ## Metric-layer lemmas -/

theorem zipWith_getq {α β γ : Type} (f : α → β → γ) :
    ∀ (l1 : List α) (l2 : List β) (i : Nat),
      (List.zipWith f l1 l2).get? i = (l1.get? i).bind (fun a => (l2.get? i).map (f a))
  | [], l2, i => by simp
  | a :: as, [], i => by simp
  | a :: as, b :: bs, 0 => rfl
  | a :: as, b :: bs, i + 1 => by
    simp only [List.zipWith_cons_cons, List.get?_cons_succ]
    exact zipWith_getq f as bs i

/-- IEEE evaluation of one `pct_change` entry on non-negative integers. -/
theorem pct_entry_eq (prev cur : Nat) :
    pct_entry prev cur =
      if prev = 0 then (if cur = 0 then FVal.nan else FVal.inf)
      else FVal.fin (((cur : ℚ) - (prev : ℚ)) / (prev : ℚ)) := by
  simp only [pct_entry, fdiv]
  by_cases hp : prev = 0
  · subst hp
    by_cases hc : cur = 0
    · subst hc
      norm_num
    · have hcq : ((cur : ℚ)) ≠ 0 := Nat.cast_ne_zero.mpr hc
      have hcpos : (0 : ℚ) < (cur : ℚ) := by positivity
      simp [hc, hcq, hcpos]
  · have hpq : ((prev : ℚ)) ≠ 0 := Nat.cast_ne_zero.mpr hp
    simp [hp, hpq]

/-- IEEE evaluation of one rate entry on non-negative integers. -/
theorem rate_entry_eq (num den : Nat) :
    rate_entry num den =
      if den = 0 then (if num = 0 then FVal.nan else FVal.inf)
      else FVal.fin ((num : ℚ) / (den : ℚ)) := by
  simp only [rate_entry, fdiv]
  by_cases hd : den = 0
  · subst hd
    by_cases hn : num = 0
    · subst hn
      norm_num
    · have hnq : ((num : ℚ)) ≠ 0 := Nat.cast_ne_zero.mpr hn
      have hnpos : (0 : ℚ) < (num : ℚ) := by positivity
      simp [hn, hnq, hnpos]
  · have hdq : ((den : ℚ)) ≠ 0 := Nat.cast_ne_zero.mpr hd
    simp [hd, hdq]

theorem rate_entry_zero_den (n : Nat) :
    rate_entry n 0 = if n = 0 then FVal.nan else FVal.inf := by
  rw [rate_entry_eq]
  simp

theorem fmul100_nan_inf (n : Nat) :
    fmul100 (if n = 0 then FVal.nan else FVal.inf) =
      if n = 0 then FVal.nan else FVal.inf := by
  split <;> rfl

theorem fillna0_ne_na (v : FVal) : fillna0 v ≠ FVal.na := by
  unfold fillna0
  split
  · exact fun h => FVal.noConfusion h
  · assumption

theorem growth_rate_def (t : MetricTable) :
    (calculate_growth_metrics t).growth_rate =
      (pct_change t.total_confirmed_cases).map fillna0 := rfl

theorem doubling_def (t : MetricTable) :
    (calculate_growth_metrics t).doubling_time_days =
      ((calculate_growth_metrics t).growth_rate.map doubling_ratio).map cleanup := rfl

theorem cfr_def (g : GrowthTable) :
    (calculate_rates g).cfr =
      List.zipWith rate_entry g.total_deaths g.total_confirmed_cases := rfl

theorem recovery_def (g : GrowthTable) :
    (calculate_rates g).recovery_rate =
      List.zipWith rate_entry g.total_recovered g.total_confirmed_cases := rfl

theorem cfr_pct_def (g : GrowthTable) :
    (calculate_rates g).cfr_pct = (calculate_rates g).cfr.map fmul100 := rfl

theorem recovery_pct_def (g : GrowthTable) :
    (calculate_rates g).recovery_rate_pct =
      (calculate_rates g).recovery_rate.map fmul100 := rfl

theorem pct_change_getq_zero (xs : List Nat) (h : xs ≠ []) :
    (pct_change xs).get? 0 = some FVal.na := by
  cases xs with
  | nil => exact absurd rfl h
  | cons a as => rfl

theorem pct_change_getq_succ (xs : List Nat) (i : Nat) :
    (pct_change xs).get? (i + 1) =
      (xs.get? i).bind (fun prev => (xs.get? (i + 1)).map (fun cur => pct_entry prev cur)) := by
  cases xs with
  | nil => simp [pct_change]
  | cons a as =>
    show (FVal.na :: List.zipWith pct_entry (a :: as) as).get? (i + 1) = _
    rw [List.get?_cons_succ, zipWith_getq]
    rfl

theorem doubling_ratio_zero : doubling_ratio (FVal.fin 0) = FVal.inf := by
  unfold doubling_ratio
  have h1 : fadd (FVal.fin 1) (FVal.fin 0) = FVal.fin 1 := by
    simp [fadd]
  rw [h1]
  have h2 : flog (FVal.fin 1) = FVal.fin 0 := by
    norm_num [flog]
  rw [h2]
  simp [fdiv, ln2F]

/-- The growth column only holds the filled first entry (0), division-by-
zero results (NaN, `+∞`), or finite relative changes, which are at least
`-1` since the counts are non-negative. -/
theorem growth_entry_cases (t : MetricTable) (i : Nat) (g : FVal)
    (h : (calculate_growth_metrics t).growth_rate.get? i = some g) :
    g = FVal.nan ∨ g = FVal.inf ∨ ∃ q : ℚ, -1 ≤ q ∧ g = FVal.fin q := by
  rw [growth_rate_def, List.get?_map] at h
  cases hu : (pct_change t.total_confirmed_cases).get? i with
  | none => rw [hu] at h; cases h
  | some u =>
    rw [hu] at h
    simp only [Option.map_some'] at h
    have hg : g = fillna0 u := ((Option.some.injEq _ _).mp h).symm
    cases i with
    | zero =>
      have hne : t.total_confirmed_cases ≠ [] := by
        intro he
        rw [he] at hu
        simp [pct_change] at hu
      rw [pct_change_getq_zero _ hne] at hu
      have hu2 : u = FVal.na := ((Option.some.injEq _ _).mp hu).symm
      subst hu2
      exact Or.inr (Or.inr ⟨0, by norm_num, by simp [hg, fillna0]⟩)
    | succ i =>
      rw [pct_change_getq_succ] at hu
      cases hp : t.total_confirmed_cases.get? i with
      | none => rw [hp] at hu; cases hu
      | some prev =>
        cases hc : t.total_confirmed_cases.get? (i + 1) with
        | none => rw [hp, hc] at hu; cases hu
        | some cur =>
          rw [hp, hc] at hu
          simp only [Option.some_bind, Option.map_some'] at hu
          have hu2 : u = pct_entry prev cur := ((Option.some.injEq _ _).mp hu).symm
          subst hu2
          rw [pct_entry_eq] at hg
          by_cases hp0 : prev = 0
          · by_cases hc0 : cur = 0
            · exact Or.inl (by simp [hg, hp0, hc0, fillna0])
            · exact Or.inr (Or.inl (by simp [hg, hp0, hc0, fillna0]))
          · refine Or.inr (Or.inr ⟨((cur : ℚ) - prev) / prev, ?_, by simp [hg, hp0, fillna0]⟩)
            have hprev : (0 : ℚ) < prev := by
              exact_mod_cast Nat.pos_of_ne_zero hp0
            rw [le_div_iff hprev]
            have hcur : (0 : ℚ) ≤ (cur : ℚ) := Nat.cast_nonneg cur
            linarith

/-- A doubling entry with non-positive `1 + growth_rate` and growth at
least `-1` comes from `growth_rate = -1` exactly, where
`ln 2 / ln 0 = ln 2 / -∞ = -0.0`, i.e. 0. -/
theorem doubling_nonpos (q : ℚ) (h1 : -1 ≤ q)
    (h2 : isNonPos (fadd (FVal.fin 1) (FVal.fin q)) = true) :
    cleanup (doubling_ratio (FVal.fin q)) = FVal.fin 0 := by
  have hq : 1 + q ≤ 0 := by simpa [fadd, isNonPos] using h2
  have hq0 : 1 + q = 0 := le_antisymm hq (by linarith)
  simp [doubling_ratio, fadd, flog, hq0, fdiv, ln2F, cleanup]

/-- Claim C2 counterexample: with confirmed cases 0 then 5 the previous
value is 0, yet the growth-rate entry is `+∞` (not 0): `pct_change`'s
division by zero yields `inf`, which `fillna(0)` does not touch. -/
theorem c2_cex :
    tGrowthInf.total_confirmed_cases.get? 0 = some 0 ∧
      (calculate_growth_metrics tGrowthInf).growth_rate.get? 1 = some FVal.inf ∧
      FVal.inf ≠ FVal.fin 0 := by
  refine ⟨rfl, ?_, by decide⟩
  rw [growth_rate_def, List.get?_map]
  have h1 : (pct_change tGrowthInf.total_confirmed_cases).get? 1 =
      some (pct_entry 0 5) := by
    rw [pct_change_getq_succ]
    rfl
  have h2 : pct_entry 0 5 = FVal.inf := by
    rw [pct_entry_eq]
    norm_num
  rw [h1, h2]
  decide

/-- Claim C2 (amended): `growth_rate[0] = 0` on every non-empty table (the
masked NA from the missing predecessor is filled), and no masked NA
survives in the growth-rate column; but when the previous confirmed value
is 0 the entry is a genuine division-by-zero result that `fillna` does not
touch: the unmasked NaN of 0/0 when the current value is also 0, and `+∞`
when the current value is positive. -/
theorem c2_amended (t : MetricTable) :
    (t.total_confirmed_cases ≠ [] →
        (calculate_growth_metrics t).growth_rate.get? 0 = some (FVal.fin 0)) ∧
      (∀ i cur, t.total_confirmed_cases.get? i = some 0 →
        t.total_confirmed_cases.get? (i + 1) = some cur →
        (calculate_growth_metrics t).growth_rate.get? (i + 1) =
          some (if cur = 0 then FVal.nan else FVal.inf)) ∧
      (∀ i v, (calculate_growth_metrics t).growth_rate.get? i = some v → v ≠ FVal.na) := by
  refine ⟨?_, ?_, ?_⟩
  · intro h
    rw [growth_rate_def, List.get?_map, pct_change_getq_zero _ h]
    rfl
  · intro i cur h0 h1
    rw [growth_rate_def, List.get?_map, pct_change_getq_succ, h0, h1]
    simp only [Option.some_bind, Option.map_some']
    rw [pct_entry_eq]
    by_cases hc : cur = 0
    · subst hc
      simp [fillna0]
    · simp [hc, fillna0]
  · intro i v hv
    rw [growth_rate_def, List.get?_map] at hv
    cases hu : (pct_change t.total_confirmed_cases).get? i with
    | none => rw [hu] at hv; cases hv
    | some u =>
      rw [hu] at hv
      simp only [Option.map_some'] at hv
      have : v = fillna0 u := ((Option.some.injEq _ _).mp hv).symm
      exact this ▸ fillna0_ne_na u

/-- Claim C2 witness: the amended statement at confirmed cases `[0, 0]`,
whose second growth entry is the surviving 0/0 NaN. -/
theorem c2_witness :
    (calculate_growth_metrics tGrowthZero).growth_rate.get? 1 = some FVal.nan := by
  have h := (c2_amended tGrowthZero).2.1 0 0 (by rfl) (by rfl)
  simpa using h

/-- Claim C3 counterexample: a row with 0 confirmed cases (and 0 deaths)
gets `cfr = NaN`, not 0 — `calculate_rates` performs no normalization. -/
theorem c3_cex :
    (calculate_growth_metrics tRatesZero).total_confirmed_cases.get? 0 = some 0 ∧
      (calculate_rates (calculate_growth_metrics tRatesZero)).cfr.get? 0 = some FVal.nan ∧
      FVal.nan ≠ FVal.fin 0 := by
  refine ⟨rfl, ?_, by decide⟩
  rw [cfr_def, zipWith_getq]
  have h1 : (calculate_growth_metrics tRatesZero).total_deaths.get? 0 = some 0 := rfl
  have h2 : (calculate_growth_metrics tRatesZero).total_confirmed_cases.get? 0 = some 0 := rfl
  rw [h1, h2]
  simp only [Option.some_bind, Option.map_some']
  rw [rate_entry_zero_den]
  simp

/-- Claim C3 (amended): when `total_confirmed_cases[i] = 0`, the four rate
columns at row `i` are non-finite, not 0: NaN when the numerator is 0 and
`+∞` when it is positive; no value is normalized to 0. -/
theorem c3_amended (g : GrowthTable) (i : Nat) (d r : Nat)
    (hc : g.total_confirmed_cases.get? i = some 0)
    (hd : g.total_deaths.get? i = some d)
    (hr : g.total_recovered.get? i = some r) :
    (calculate_rates g).cfr.get? i = some (if d = 0 then FVal.nan else FVal.inf) ∧
      (calculate_rates g).cfr_pct.get? i = some (if d = 0 then FVal.nan else FVal.inf) ∧
      (calculate_rates g).recovery_rate.get? i =
        some (if r = 0 then FVal.nan else FVal.inf) ∧
      (calculate_rates g).recovery_rate_pct.get? i =
        some (if r = 0 then FVal.nan else FVal.inf) := by
  have h1 : (calculate_rates g).cfr.get? i = some (rate_entry d 0) := by
    rw [cfr_def, zipWith_getq, hd, hc]
    rfl
  have h2 : (calculate_rates g).recovery_rate.get? i = some (rate_entry r 0) := by
    rw [recovery_def, zipWith_getq, hr, hc]
    rfl
  refine ⟨?_, ?_, ?_, ?_⟩
  · rw [h1, rate_entry_zero_den]
  · rw [cfr_pct_def, List.get?_map, h1]
    simp only [Option.map_some']
    rw [rate_entry_zero_den, fmul100_nan_inf]
  · rw [h2, rate_entry_zero_den]
  · rw [recovery_pct_def, List.get?_map, h2]
    simp only [Option.map_some']
    rw [rate_entry_zero_den, fmul100_nan_inf]

/-- Claim C3 witness: the amended statement at the all-zero row. -/
theorem c3_witness :
    (calculate_rates (calculate_growth_metrics tRatesZero)).cfr_pct.get? 0 =
        some FVal.nan ∧
      (calculate_rates (calculate_growth_metrics tRatesZero)).recovery_rate.get? 0 =
        some FVal.nan := by
  have h := c3_amended (calculate_growth_metrics tRatesZero) 0 0 0 rfl rfl rfl
  exact ⟨by simpa using h.2.1, by simpa using h.2.2.1⟩

/-- Claim C4 counterexample: with confirmed cases `[0, 0]` the second
growth entry is the unmasked 0/0 NaN, so the raw doubling value is NaN —
and it survives `replace([inf, -inf], 0).fillna(0)`, because `replace`
only matches the infinities and `fillna` only fills masked NAs: the
doubling column holds NaN, not 0. -/
theorem c4_cex :
    (calculate_growth_metrics tGrowthZero).growth_rate.get? 1 = some FVal.nan ∧
      (calculate_growth_metrics tGrowthZero).doubling_time_days.get? 1 = some FVal.nan ∧
      FVal.nan ≠ FVal.fin 0 := by
  have hg : (calculate_growth_metrics tGrowthZero).growth_rate.get? 1 = some FVal.nan := by
    rw [growth_rate_def, List.get?_map]
    have h1 : (pct_change tGrowthZero.total_confirmed_cases).get? 1 =
        some (pct_entry 0 0) := by
      rw [pct_change_getq_succ]
      rfl
    have h2 : pct_entry 0 0 = FVal.nan := by
      rw [pct_entry_eq]
      norm_num
    rw [h1, h2]
    decide
  refine ⟨hg, ?_, by decide⟩
  rw [doubling_def, List.get?_map, List.get?_map, hg]
  decide

/-- Claim C4 (amended): on a non-empty table `growth_rate[0] = 0` and
`doubling_time_days[0] = 0` (the first growth entry is the filled NA, so
the raw doubling value is `ln 2 / ln 1 = +∞`, replaced by 0); every
doubling entry whose raw value is `±∞`, and every one arising from a
non-positive `1 + growth_rate` (only `growth_rate = -1` is reachable,
giving `ln 2 / -∞ = -0.0`), is 0 in the column; but a NaN raw value — from
a NaN growth entry — is not replaced and survives. -/
theorem c4_amended (t : MetricTable) :
    (t.total_confirmed_cases ≠ [] →
        (calculate_growth_metrics t).growth_rate.get? 0 = some (FVal.fin 0) ∧
        (calculate_growth_metrics t).doubling_time_days.get? 0 = some (FVal.fin 0)) ∧
      ∀ i g, (calculate_growth_metrics t).growth_rate.get? i = some g →
        (doubling_ratio g = FVal.inf ∨ doubling_ratio g = FVal.ninf ∨
          isNonPos (fadd (FVal.fin 1) g) = true) →
        (calculate_growth_metrics t).doubling_time_days.get? i = some (FVal.fin 0) := by
  constructor
  · intro h
    have hg : (calculate_growth_metrics t).growth_rate.get? 0 = some (FVal.fin 0) := by
      rw [growth_rate_def, List.get?_map, pct_change_getq_zero _ h]
      rfl
    refine ⟨hg, ?_⟩
    rw [doubling_def, List.get?_map, List.get?_map, hg]
    simp only [Option.map_some']
    rw [doubling_ratio_zero]
    rfl
  · intro i g hg hcase
    rw [doubling_def, List.get?_map, List.get?_map, hg]
    simp only [Option.map_some']
    rcases hcase with hc | hc | hc
    · rw [hc]
      rfl
    · rw [hc]
      rfl
    · rcases growth_entry_cases t i g hg with h | h | ⟨q, hq, h⟩
      · subst h
        simp [fadd, isNonPos] at hc
      · subst h
        simp [fadd, isNonPos] at hc
      · subst h
        rw [doubling_nonpos q hq hc]

/-- Claim C4 witness: the first-row conclusions of the amended statement at
a concrete two-row table. -/
theorem c4_witness :
    (calculate_growth_metrics tConst).growth_rate.get? 0 = some (FVal.fin 0) ∧
      (calculate_growth_metrics tConst).doubling_time_days.get? 0 = some (FVal.fin 0) :=
  (c4_amended tConst).1 (by decide)

/-- Claim C7: the metric functions only add derived columns; the source
columns (date and the six counts) of their input reappear unchanged in
their output — in this value-level embedding, the projection of the
augmented table onto the input columns is the input itself. -/
theorem c7_source_columns_preserved (t : MetricTable) (g : GrowthTable) :
    (calculate_growth_metrics t).toMetricTable = t ∧
      (calculate_rates g).toGrowthTable = g :=
  ⟨rfl, rfl⟩

end CovidApp
